import Mathlib

/-!
Verification of the buffered log-writer core (`src/modules/logger/log_writer.cpp`).

The ring buffer is embedded shallowly: the backing storage `uint8_t *_buffer`
becomes a total map `Nat → Nat` read only at offsets below `_buffer_size`;
`memcpy` into the storage becomes a range overwrite of that map; the worker's
drain loop (`LogWriter::run`, lines 164-240) becomes a fuel-indexed step
function emitting the sequence of sink calls (`write`, `fsync`, `close`) as an
event trace.  Machine integers are modelled as `Nat` (sizes, cursors) and
`Int` (the `::write` return value and the file descriptor).
-/

set_option maxRecDepth 100000

namespace LogWriter

/-- Modelled from the spec: `_min_write_chunk` is declared in `log_writer.h`,
which is not part of this repository snapshot.  The spec fixes the chunk
threshold at 300 ("capacity = 1024, chunk threshold = 300"), matching the
constructor comment "the buffer needs to be larger than the minimum write
chunk (300 is somewhat arbitrary)". -/
def min_write_chunk : Nat := 300

/-- `LogWriter::LogWriter(size_t buffer_size)`:
`_buffer_size(math::max(buffer_size, _min_write_chunk + 300))`. -/
def initBufferSize (buffer_size : Nat) : Nat :=
  max buffer_size (min_write_chunk + 300)

/-- The ring-buffer portion of the `LogWriter` state: `_buffer_size` (capacity),
the backing storage `_buffer` as a total map from byte offset to byte value,
the write cursor `_head`, and the unread byte count `_count`. -/
structure BufState where
  buffer_size : Nat
  buffer : Nat → Nat
  head : Nat
  count : Nat

/-- `memcpy(&buf[dst], src, src.length)`: overwrite offsets
`dst ≤ j < dst + src.length` with the corresponding bytes of `src`. -/
def memcpyAt (buf : Nat → Nat) (dst : Nat) (src : List Nat) : Nat → Nat :=
  fun j => if dst ≤ j ∧ j < dst + src.length then src.getD (j - dst) 0 else buf j

/-- `LogWriter::write(void *ptr, size_t size)` (lines 244-274).
`available = _buffer_size - _count`; overflow (`size > available`) is rejected
with no state change.  Otherwise, with `n = _buffer_size - _head` the bytes to
the end of the storage: if `size > n` the message goes over the end, so the
first `n` bytes are copied at `_head` and `_head` is reset to `0` before the
remaining `size - n` bytes are copied; else all `size` bytes are copied at
`_head`.  Finally `_head = (_head + p) % _buffer_size` and `_count += size`. -/
def write (s : BufState) (data : List Nat) : Bool × BufState :=
  if data.length > s.buffer_size - s.count then (false, s)
  else if data.length > s.buffer_size - s.head then
    (true, { s with
      buffer := memcpyAt (memcpyAt s.buffer s.head (data.take (s.buffer_size - s.head))) 0
                  (data.drop (s.buffer_size - s.head)),
      head := (data.length - (s.buffer_size - s.head)) % s.buffer_size,
      count := s.count + data.length })
  else
    (true, { s with
      buffer := memcpyAt s.buffer s.head data,
      head := (s.head + data.length) % s.buffer_size,
      count := s.count + data.length })

/-- The result of `LogWriter::get_read_ptr(void **ptr, bool *is_part)`:
the offset `*ptr - _buffer`, the returned length, and `*is_part`. -/
structure ReadRun where
  pos : Nat
  len : Nat
  is_part : Bool
deriving DecidableEq

/-- `LogWriter::get_read_ptr` (lines 276-292): `int read_ptr = _head - _count`;
if negative, add `_buffer_size`, return the tail run up to the end of the
storage and set `*is_part = true`; else return the full run of `_count`
bytes at `read_ptr` with `*is_part = false`. -/
def get_read_ptr (s : BufState) : ReadRun :=
  if s.head < s.count then
    ⟨s.head + s.buffer_size - s.count,
     s.buffer_size - (s.head + s.buffer_size - s.count), true⟩
  else
    ⟨s.head - s.count, s.count, false⟩

/-- Modelled from the spec: `mark_read(size_t n)` is declared in the missing
`log_writer.h`.  Per the call-site comment at line 213 ("subtract bytes written
from number in _buffer (_count -= written)") and the spec's `consume(n)`, it
decrements `_count` by `n` and does not move `_head`. -/
def mark_read (s : BufState) (n : Nat) : BufState :=
  { s with count := s.count - n }

/-- `start_log` / the session-close path both clear the cursors:
`_head = 0; _count = 0` (lines 99-100 and 223-224). -/
def start_log_reset (s : BufState) : BufState :=
  { s with head := 0, count := 0 }

/-- The bytes at a contiguous range of the backing storage - what a single
`::write(_fd, read_ptr, available)` hands to the sink. -/
def readBytes (buf : Nat → Nat) (pos len : Nat) : List Nat :=
  (List.range len).map fun k => buf (pos + k)

/-- Ghost view of the buffer: the unread bytes in FIFO order.  When the unread
region wraps (`_head < _count`) it is the tail segment up to the end of the
storage followed by the head segment from offset 0; else it is the single
contiguous run ending at `_head`. -/
def unread (s : BufState) : List Nat :=
  if s.head < s.count then
    readBytes s.buffer (s.head + s.buffer_size - s.count) (s.count - s.head) ++
      readBytes s.buffer 0 s.head
  else
    readBytes s.buffer (s.head - s.count) s.count

/-- The ring-buffer invariants stated by the spec's data model:
`write_cursor ∈ [0, capacity)` and `0 ≤ stored_count ≤ capacity`. -/
def Inv (s : BufState) : Prop :=
  s.head < s.buffer_size ∧ s.count ≤ s.buffer_size

instance (s : BufState) : Decidable (Inv s) := by
  unfold Inv; infer_instance

/-- The start of the unread region as the spec computes it:
`read_pos = (write_cursor - stored_count) mod capacity`. -/
def readPosSpec (s : BufState) : Nat :=
  (s.head + s.buffer_size - s.count) % s.buffer_size

/-- Modelled from the spec's words (refinement target for `get_read_ptr`):
"If `read_pos + stored_count` would exceed `capacity` ... returns only the
tail segment - from `read_pos` to `capacity` - and marks `is_partial = true`
... Otherwise returns the full contiguous unread region and
`is_partial = false`." -/
def readable_run_spec (s : BufState) : ReadRun :=
  if readPosSpec s + s.count > s.buffer_size then
    ⟨readPosSpec s, s.buffer_size - readPosSpec s, true⟩
  else
    ⟨readPosSpec s, s.count, false⟩

/-- The boundary-corrected description of `get_read_ptr`: the partial branch
is taken exactly when `stored_count > write_cursor`, i.e. when
`read_pos + stored_count` reaches *or* exceeds `capacity` while data is
resident. -/
def readable_run_amended (s : BufState) : ReadRun :=
  if s.buffer_size ≤ readPosSpec s + s.count ∧ 0 < s.count then
    ⟨readPosSpec s, s.buffer_size - readPosSpec s, true⟩
  else
    ⟨readPosSpec s, s.count, false⟩

theorem readBytes_length (buf : Nat → Nat) (pos len : Nat) :
    (readBytes buf pos len).length = len := by
  simp [readBytes]

theorem readBytes_zero (buf : Nat → Nat) (pos : Nat) : readBytes buf pos 0 = [] := by
  simp [readBytes]

theorem readBytes_add (buf : Nat → Nat) (p a b : Nat) :
    readBytes buf p (a + b) = readBytes buf p a ++ readBytes buf (p + a) b := by
  simp only [readBytes, List.range_add, List.map_append, List.map_map]
  congr 1
  apply List.map_congr_left
  intro x _
  simp [Nat.add_assoc]

theorem readBytes_congr (buf1 buf2 : Nat → Nat) (p len : Nat)
    (h : ∀ k, k < len → buf1 (p + k) = buf2 (p + k)) :
    readBytes buf1 p len = readBytes buf2 p len := by
  simp only [readBytes]
  apply List.map_congr_left
  intro x hx
  exact h x (List.mem_range.mp hx)

theorem memcpyAt_out (buf : Nat → Nat) (dst : Nat) (src : List Nat) (j : Nat)
    (h : j < dst ∨ dst + src.length ≤ j) :
    memcpyAt buf dst src j = buf j := by
  unfold memcpyAt
  rw [if_neg (by omega)]

theorem readBytes_memcpy (buf : Nat → Nat) (dst : Nat) (src : List Nat) :
    readBytes (memcpyAt buf dst src) dst src.length = src := by
  apply List.ext_getElem (by simp [readBytes])
  intro i h1 h2
  simp only [readBytes, List.getElem_map, List.getElem_range, memcpyAt]
  rw [if_pos (by omega)]
  rw [List.getD_eq_getElem src 0 (by omega)]
  congr 1
  omega

theorem readBytes_memcpy_out (buf : Nat → Nat) (dst : Nat) (src : List Nat) (p len : Nat)
    (h : p + len ≤ dst ∨ dst + src.length ≤ p) :
    readBytes (memcpyAt buf dst src) p len = readBytes buf p len := by
  apply readBytes_congr
  intro k hk
  exact memcpyAt_out buf dst src (p + k) (by omega)

theorem unread_length (s : BufState) (hinv : Inv s) : (unread s).length = s.count := by
  obtain ⟨hh, hc⟩ := hinv
  unfold unread
  split_ifs with h
  · simp only [List.length_append, readBytes_length]
    omega
  · simp only [readBytes_length]

theorem unread_of_count_zero (s : BufState) (h0 : s.count = 0) : unread s = [] := by
  unfold unread
  rw [if_neg (by omega), h0, readBytes_zero]

/-- Correctness of `LogWriter::write` on accepted appends: the call succeeds,
the cursors advance as the spec describes, and the ghost FIFO view gains
exactly the appended payload at its end. -/
theorem write_spec (s : BufState) (data : List Nat) (hinv : Inv s)
    (hsz : s.count + data.length ≤ s.buffer_size) :
    (write s data).1 = true ∧
    (write s data).2.buffer_size = s.buffer_size ∧
    (write s data).2.head < s.buffer_size ∧
    (write s data).2.count = s.count + data.length ∧
    unread (write s data).2 = unread s ++ data := by
  obtain ⟨hh, hc⟩ := hinv
  have hcap : 0 < s.buffer_size := by omega
  have hov : ¬ data.length > s.buffer_size - s.count := by omega
  by_cases hwrap : data.length > s.buffer_size - s.head
  · -- the message goes over the end of the buffer
    have hch : s.count < s.head := by omega
    have hsz1 : 1 ≤ data.length := by omega
    have hres : write s data = (true, { s with
        buffer := memcpyAt (memcpyAt s.buffer s.head (data.take (s.buffer_size - s.head))) 0
                    (data.drop (s.buffer_size - s.head)),
        head := (data.length - (s.buffer_size - s.head)) % s.buffer_size,
        count := s.count + data.length }) := by
      unfold write
      rw [if_neg hov, if_pos hwrap]
    rw [hres]
    have hhead' : (data.length - (s.buffer_size - s.head)) % s.buffer_size =
        data.length - (s.buffer_size - s.head) := Nat.mod_eq_of_lt (by omega)
    refine ⟨rfl, rfl, ?_, rfl, ?_⟩
    · exact Nat.mod_lt _ hcap
    · -- the unread view
      have htk : (data.take (s.buffer_size - s.head)).length = s.buffer_size - s.head := by
        simp [List.length_take]; omega
      have hdp : (data.drop (s.buffer_size - s.head)).length =
          data.length - (s.buffer_size - s.head) := by simp
      unfold unread
      simp only [hhead']
      rw [if_pos (by omega), if_neg (by omega)]
      have e1 : data.length - (s.buffer_size - s.head) + s.buffer_size -
          (s.count + data.length) = s.head - s.count := by omega
      have e2 : s.count + data.length - (data.length - (s.buffer_size - s.head)) =
          s.count + (s.buffer_size - s.head) := by omega
      rw [e1, e2, readBytes_add]
      have e3 : s.head - s.count + s.count = s.head := by omega
      rw [e3]
      -- untouched old region
      have p1 : readBytes (memcpyAt (memcpyAt s.buffer s.head
            (data.take (s.buffer_size - s.head))) 0 (data.drop (s.buffer_size - s.head)))
            (s.head - s.count) s.count = readBytes s.buffer (s.head - s.count) s.count := by
        rw [readBytes_memcpy_out _ _ _ _ _ (by rw [hdp]; omega),
            readBytes_memcpy_out _ _ _ _ _ (by omega)]
      -- first copied segment: the bytes up to the end of the storage
      have p2 : readBytes (memcpyAt (memcpyAt s.buffer s.head
            (data.take (s.buffer_size - s.head))) 0 (data.drop (s.buffer_size - s.head)))
            s.head (s.buffer_size - s.head) = data.take (s.buffer_size - s.head) := by
        rw [readBytes_memcpy_out _ _ _ _ _ (by rw [hdp]; omega)]
        calc readBytes (memcpyAt s.buffer s.head (data.take (s.buffer_size - s.head)))
              s.head (s.buffer_size - s.head)
            = readBytes (memcpyAt s.buffer s.head (data.take (s.buffer_size - s.head)))
              s.head (data.take (s.buffer_size - s.head)).length := by rw [htk]
          _ = data.take (s.buffer_size - s.head) := readBytes_memcpy _ _ _
      -- second copied segment: the wrapped remainder at offset 0
      have p3 : readBytes (memcpyAt (memcpyAt s.buffer s.head
            (data.take (s.buffer_size - s.head))) 0 (data.drop (s.buffer_size - s.head)))
            0 (data.length - (s.buffer_size - s.head)) =
            data.drop (s.buffer_size - s.head) := by
        calc readBytes (memcpyAt (memcpyAt s.buffer s.head
              (data.take (s.buffer_size - s.head))) 0 (data.drop (s.buffer_size - s.head)))
              0 (data.length - (s.buffer_size - s.head))
            = readBytes (memcpyAt (memcpyAt s.buffer s.head
              (data.take (s.buffer_size - s.head))) 0 (data.drop (s.buffer_size - s.head)))
              0 (data.drop (s.buffer_size - s.head)).length := by rw [hdp]
          _ = data.drop (s.buffer_size - s.head) := readBytes_memcpy _ _ _
      rw [p1, p2, p3, List.append_assoc, List.take_append_drop]
  · -- the message fits before the end of the buffer
    have hres : write s data = (true, { s with
        buffer := memcpyAt s.buffer s.head data,
        head := (s.head + data.length) % s.buffer_size,
        count := s.count + data.length }) := by
      unfold write
      rw [if_neg hov, if_neg hwrap]
    rw [hres]
    refine ⟨rfl, rfl, Nat.mod_lt _ hcap, rfl, ?_⟩
    by_cases hend : s.head + data.length < s.buffer_size
    · have hhead' : (s.head + data.length) % s.buffer_size = s.head + data.length :=
        Nat.mod_eq_of_lt hend
      unfold unread
      simp only [hhead']
      by_cases hpart : s.head < s.count
      · rw [if_pos (by omega), if_pos hpart]
        have e1 : s.head + data.length + s.buffer_size - (s.count + data.length) =
            s.head + s.buffer_size - s.count := by omega
        have e2 : s.count + data.length - (s.head + data.length) = s.count - s.head := by
          omega
        rw [e1, e2, readBytes_add, Nat.zero_add]
        rw [readBytes_memcpy_out _ _ _ _ _ (by omega),
            readBytes_memcpy_out _ _ _ _ _ (by omega)]
        have p3 : readBytes (memcpyAt s.buffer s.head data) s.head data.length = data :=
          readBytes_memcpy _ _ _
        rw [p3, List.append_assoc]
      · rw [if_neg (by omega), if_neg hpart]
        have e1 : s.head + data.length - (s.count + data.length) = s.head - s.count := by
          omega
        have e2 : s.count + data.length = s.count + data.length := rfl
        rw [e1, readBytes_add]
        have e3 : s.head - s.count + s.count = s.head := by omega
        rw [e3, readBytes_memcpy_out _ _ _ _ _ (by omega), readBytes_memcpy _ _ _]
    · -- the append ends exactly at the storage boundary: the cursor wraps to 0
      have hex : s.head + data.length = s.buffer_size := by omega
      have hhead' : (s.head + data.length) % s.buffer_size = 0 := by
        rw [hex, Nat.mod_self]
      have hsz1 : 1 ≤ data.length := by omega
      have hpart : ¬ s.head < s.count := by omega
      unfold unread
      simp only [hhead']
      rw [if_pos (by omega), if_neg hpart]
      rw [readBytes_zero, List.append_nil]
      have e1 : 0 + s.buffer_size - (s.count + data.length) = s.head - s.count := by omega
      have e2 : s.count + data.length - 0 = s.count + data.length := by omega
      rw [e1, e2, readBytes_add]
      have e3 : s.head - s.count + s.count = s.head := by omega
      rw [e3, readBytes_memcpy_out _ _ _ _ _ (by omega), readBytes_memcpy _ _ _]

theorem get_read_ptr_ge (s : BufState) (h : s.count ≤ s.head) :
    get_read_ptr s = ⟨s.head - s.count, s.count, false⟩ := by
  rw [get_read_ptr, if_neg (by omega)]

theorem get_read_ptr_lt (s : BufState) (hinv : Inv s) (h : s.head < s.count) :
    get_read_ptr s = ⟨s.head + s.buffer_size - s.count, s.count - s.head, true⟩ := by
  obtain ⟨hh, hc⟩ := hinv
  rw [get_read_ptr, if_pos h]
  congr 1
  omega

/-- The calls the worker makes on the sink, in order: `::write(_fd, ptr, n)`
with the bytes handed over, `::fsync(_fd)`, and `::close(_fd)`. -/
inductive Event where
  | write (data : List Nat)
  | fsync
  | close
deriving DecidableEq

/-- The worker-visible state: the ring buffer plus the session flags
`_should_run`, `_running`, the sink descriptor `_fd`, the per-session flush
counter `poll_count` (line 161) and `_total_written`. -/
structure WorkerState where
  buf : BufState
  should_run : Bool
  running : Bool
  fd : Int
  poll_count : Nat
  total_written : Nat

/-- The flush-cadence update at lines 198-203: `++poll_count`, and if the
counter reached 100, issue an `fsync` and reset it to zero.  Returns the new
counter and whether the forced flush fired. -/
def pollUpdate (p : Nat) : Nat × Bool :=
  if p + 1 ≥ 100 then (0, true) else (p + 1, false)

/-- The wait-loop exit condition at line 178:
`(available >= _min_write_chunk) || is_part || !_should_run`. -/
def proceedCond (should_run : Bool) (s : BufState) : Bool :=
  decide (min_write_chunk ≤ (get_read_ptr s).len) || (get_read_ptr s).is_part || !should_run

/-- Outcome of one iteration of the inner drain loop (lines 164-240):
`wait` models blocking at `pthread_cond_wait` (line 186), `brk` models the two
`break` exits (write error at line 209, session close at line 238), and `cont`
models falling through to the next iteration. -/
inductive StepResult where
  | wait
  | cont (w : WorkerState) (evs : List Event)
  | brk (w : WorkerState) (evs : List Event)

/-- The session-close block at lines 222-236: clear `_running`, reset the
cursors, and close the descriptor if it is still open. -/
def closeSession (w : WorkerState) : WorkerState × List Event :=
  let w1 : WorkerState := { w with
    running := false,
    buf := { w.buf with head := 0, count := 0 } }
  if w1.fd ≥ 0 then ({ w1 with fd := -1 }, [Event.close]) else (w1, [])

/-- One iteration of the drain loop (lines 164-240), parameterised by the
sink's `::write` result for the handed bytes.  The fsync check (line 198)
precedes the error check (line 205), exactly as in the source, so a failing
write still advances the flush counter.  On success the close condition
(line 220) fires only when the whole `available` span went out and the run
was not partial. -/
def drainIter (sinkRes : List Nat → Int) (w : WorkerState) : StepResult :=
  let r := get_read_ptr w.buf
  if proceedCond w.should_run w.buf then
    if 0 < r.len then
      let data := readBytes w.buf.buffer r.pos r.len
      let res := sinkRes data
      let evs := Event.write data :: (if (pollUpdate w.poll_count).2 then [Event.fsync] else [])
      if res < 0 then
        let wf : WorkerState :=
          { w with should_run := false, poll_count := (pollUpdate w.poll_count).1 }
        StepResult.brk wf evs
      else
        let w' : WorkerState :=
          { w with buf := mark_read w.buf res.toNat,
                   poll_count := (pollUpdate w.poll_count).1,
                   total_written := w.total_written + res.toNat }
        if w'.should_run = false ∧ res.toNat = r.len ∧ r.is_part = false then
          StepResult.brk (closeSession w').1 (evs ++ (closeSession w').2)
        else
          StepResult.cont w' evs
    else
      if w.should_run = false ∧ r.len = 0 ∧ r.is_part = false then
        StepResult.brk (closeSession w).1 (closeSession w).2
      else
        StepResult.cont w []
  else
    StepResult.wait

/-- Result of running the drain loop: final state, the trace of sink calls,
and whether the loop exited via `break` (as opposed to running out of fuel or
parking on the condition variable). -/
structure DrainResult where
  final : WorkerState
  events : List Event
  broke : Bool

/-- Fuel-indexed unrolling of `while (true)` at line 164. -/
def drainLoop (sinkRes : List Nat → Int) : Nat → WorkerState → DrainResult
  | 0, w => ⟨w, [], false⟩
  | fuel + 1, w =>
    match drainIter sinkRes w with
    | .wait => ⟨w, [], false⟩
    | .brk w' evs => ⟨w', evs, true⟩
    | .cont w' evs =>
      let R := drainLoop sinkRes fuel w'
      ⟨R.final, evs ++ R.events, R.broke⟩

/-- A sink whose `::write` always succeeds in full. -/
def sinkOk (data : List Nat) : Int := (data.length : Int)

/-- A sink whose `::write` fails with a negative result. -/
def sinkFail (_ : List Nat) : Int := -1

/-- After a stop request (`_should_run == false`) the wait loop never blocks,
and with a fully-successful sink the drain runs to completion within two
iterations; `stopDrain` is that bounded run. -/
def stopDrain (w : WorkerState) : DrainResult := drainLoop sinkOk 2 w

/-- The payloads of the sink `::write` calls in a trace, in order. -/
def writesOf (evs : List Event) : List (List Nat) :=
  evs.filterMap fun e => match e with
    | .write d => some d
    | _ => none

/-- A sequence of producer `append` calls: fold `LogWriter::write` over the
payloads, recording whether every call succeeded. -/
def appendAll (s : BufState) : List (List Nat) → Bool × BufState
  | [] => (true, s)
  | d :: ds =>
    let r := write s d
    let rs := appendAll r.2 ds
    (r.1 && rs.1, rs.2)

/-- The flush counter after `k` sink writes of a session (it starts at 0,
line 161). -/
def pollAfter : Nat → Nat
  | 0 => 0
  | k + 1 => (pollUpdate (pollAfter k)).1

/-- Number of forced flushes issued during the first `k` sink writes of a
session. -/
def flushCount : Nat → Nat
  | 0 => 0
  | k + 1 => flushCount k + (if (pollUpdate (pollAfter k)).2 then 1 else 0)

theorem closeSession_final (w : WorkerState) :
    (closeSession w).1.running = false ∧
    (closeSession w).1.buf.head = 0 ∧
    (closeSession w).1.buf.count = 0 ∧
    (closeSession w).1.should_run = w.should_run ∧
    (closeSession w).1.buf.buffer_size = w.buf.buffer_size := by
  unfold closeSession
  dsimp only
  split_ifs <;> exact ⟨rfl, rfl, rfl, rfl, rfl⟩

theorem closeSession_fd_pos (w : WorkerState) (h : 0 ≤ w.fd) :
    (closeSession w).1.fd = -1 ∧ (closeSession w).2 = [Event.close] := by
  unfold closeSession
  rw [if_pos h]
  exact ⟨rfl, rfl⟩

theorem sinkOk_not_neg (d : List Nat) : ¬ sinkOk d < 0 := by
  simp [sinkOk]

theorem sinkOk_toNat (d : List Nat) : (sinkOk d).toNat = d.length := by
  simp [sinkOk]

theorem sinkFail_neg (d : List Nat) : sinkFail d < 0 := by
  norm_num [sinkFail]

theorem writesOf_nil : writesOf [] = [] := rfl

theorem writesOf_cons_write (d : List Nat) (evs : List Event) :
    writesOf (Event.write d :: evs) = d :: writesOf evs := by
  simp [writesOf]

theorem writesOf_append (a b : List Event) :
    writesOf (a ++ b) = writesOf a ++ writesOf b := by
  simp [writesOf]

theorem writesOf_fsOpt (b : Bool) :
    writesOf (if b then [Event.fsync] else []) = [] := by
  cases b <;> rfl

theorem writesOf_close : writesOf [Event.close] = [] := rfl

theorem close_not_mem_fsOpt (b : Bool) :
    Event.close ∉ (if b then [Event.fsync] else []) := by
  cases b <;> simp

theorem drainLoop_succ_brk (sk : List Nat → Int) (n : Nat) (w w' : WorkerState)
    (evs : List Event) (h : drainIter sk w = StepResult.brk w' evs) :
    drainLoop sk (n + 1) w = ⟨w', evs, true⟩ := by
  simp [drainLoop, h]

theorem drainLoop_succ_cont (sk : List Nat → Int) (n : Nat) (w w' : WorkerState)
    (evs : List Event) (h : drainIter sk w = StepResult.cont w' evs) :
    drainLoop sk (n + 1) w =
      ⟨(drainLoop sk n w').final, evs ++ (drainLoop sk n w').events,
       (drainLoop sk n w').broke⟩ := by
  simp [drainLoop, h]

/-- When a stop has been requested, the gate at line 178 always passes. -/
theorem proceedCond_of_stop (sr : Bool) (s : BufState) (hsr : sr = false) :
    proceedCond sr s = true := by
  simp [proceedCond, hsr]

/-- Drain-loop iteration, stop requested, non-partial run with data: the sink
write succeeds in full, the bytes are consumed, and the close block fires in
the same iteration. -/
theorem drainIter_ok_full (w : WorkerState) (p n : Nat) (hsr : w.should_run = false)
    (hp : (get_read_ptr w.buf).pos = p) (hn : (get_read_ptr w.buf).len = n)
    (hpart : (get_read_ptr w.buf).is_part = false) (hpos : 0 < n) :
    drainIter sinkOk w =
      StepResult.brk
        (closeSession { w with
          buf := mark_read w.buf n,
          poll_count := (pollUpdate w.poll_count).1,
          total_written := w.total_written + n }).1
        ((Event.write (readBytes w.buf.buffer p n) ::
            (if (pollUpdate w.poll_count).2 then [Event.fsync] else [])) ++
          (closeSession { w with
            buf := mark_read w.buf n,
            poll_count := (pollUpdate w.poll_count).1,
            total_written := w.total_written + n }).2) := by
  unfold drainIter
  rw [proceedCond_of_stop _ _ hsr, if_pos rfl, hp, hn, hpart]
  rw [if_pos hpos, if_neg (sinkOk_not_neg _)]
  rw [sinkOk_toNat, readBytes_length]
  rw [if_pos ⟨hsr, rfl, rfl⟩]

/-- Drain-loop iteration, stop requested, partial (wrapped) run: the tail
segment goes out and is consumed, but `is_part` blocks the close condition,
so the loop continues. -/
theorem drainIter_ok_partial (w : WorkerState) (p n : Nat) (hsr : w.should_run = false)
    (hp : (get_read_ptr w.buf).pos = p) (hn : (get_read_ptr w.buf).len = n)
    (hpart : (get_read_ptr w.buf).is_part = true) (hpos : 0 < n) :
    drainIter sinkOk w =
      StepResult.cont
        { w with
          buf := mark_read w.buf n,
          poll_count := (pollUpdate w.poll_count).1,
          total_written := w.total_written + n }
        (Event.write (readBytes w.buf.buffer p n) ::
          (if (pollUpdate w.poll_count).2 then [Event.fsync] else [])) := by
  unfold drainIter
  rw [proceedCond_of_stop _ _ hsr, if_pos rfl, hp, hn, hpart]
  rw [if_pos hpos, if_neg (sinkOk_not_neg _)]
  rw [sinkOk_toNat, readBytes_length]
  rw [if_neg (by simp)]

/-- Drain-loop iteration, stop requested, empty buffer: no write happens and
the close block fires (`written == available` with both zero). -/
theorem drainIter_empty (w : WorkerState) (hsr : w.should_run = false)
    (hn : (get_read_ptr w.buf).len = 0)
    (hpart : (get_read_ptr w.buf).is_part = false) :
    drainIter sinkOk w =
      StepResult.brk (closeSession w).1 (closeSession w).2 := by
  unfold drainIter
  rw [proceedCond_of_stop _ _ hsr, if_pos rfl, hn, hpart]
  rw [if_neg (by omega), if_pos ⟨hsr, rfl, rfl⟩]

theorem mark_read_head (s : BufState) (n : Nat) : (mark_read s n).head = s.head := rfl

theorem mark_read_count (s : BufState) (n : Nat) :
    (mark_read s n).count = s.count - n := rfl

theorem mark_read_buffer (s : BufState) (n : Nat) :
    (mark_read s n).buffer = s.buffer := rfl

theorem closeSession_fd_neg (w : WorkerState) (h : ¬ 0 ≤ w.fd) :
    (closeSession w).2 = [] := by
  unfold closeSession
  dsimp only
  rw [if_neg h]

/-- Master lemma for the stop-requested drain: within two loop iterations the
worker hands every unread byte to the sink (tail segment first when the region
wraps, head segment second), closes the session exactly once when the
descriptor is open, and resets `_running`, `_head` and `_count`. -/
theorem stopDrain_spec (w : WorkerState) (hinv : Inv w.buf) (hsr : w.should_run = false) :
    (stopDrain w).broke = true ∧
    (stopDrain w).final.running = false ∧
    (stopDrain w).final.buf.head = 0 ∧
    (stopDrain w).final.buf.count = 0 ∧
    (writesOf (stopDrain w).events).flatten = unread w.buf ∧
    (0 ≤ w.fd → (stopDrain w).final.fd = -1 ∧
      ∃ pre, (stopDrain w).events = pre ++ [Event.close] ∧ Event.close ∉ pre) ∧
    (w.buf.head < w.buf.count → 0 < w.buf.head →
      writesOf (stopDrain w).events =
        [readBytes w.buf.buffer (w.buf.head + w.buf.buffer_size - w.buf.count)
          (w.buf.count - w.buf.head),
         readBytes w.buf.buffer 0 w.buf.head]) := by
  obtain ⟨hh, hc⟩ := hinv
  by_cases hlt : w.buf.head < w.buf.count
  · -- the unread region wraps: a partial run first
    have hread := get_read_ptr_lt w.buf ⟨hh, hc⟩ hlt
    have hiter1 := drainIter_ok_partial w (w.buf.head + w.buf.buffer_size - w.buf.count)
      (w.buf.count - w.buf.head) hsr (by rw [hread]) (by rw [hread]) (by rw [hread])
      (by omega)
    obtain ⟨W1, hW1⟩ : ∃ x : WorkerState, ({ w with
        buf := mark_read w.buf (w.buf.count - w.buf.head),
        poll_count := (pollUpdate w.poll_count).1,
        total_written := w.total_written + (w.buf.count - w.buf.head) } :
          WorkerState) = x := ⟨_, rfl⟩
    rw [hW1] at hiter1
    have hbuf1 : W1.buf = mark_read w.buf (w.buf.count - w.buf.head) := by rw [← hW1]
    have hsr1 : W1.should_run = false := by rw [← hW1]; exact hsr
    have hfd1 : W1.fd = w.fd := by rw [← hW1]
    have hbb1 : W1.buf.buffer = w.buf.buffer := by rw [hbuf1, mark_read_buffer]
    have hsd := drainLoop_succ_cont sinkOk 1 w _ _ hiter1
    by_cases hh0 : w.buf.head = 0
    · -- degenerate wrap: the tail segment was the whole region
      have hr1 : get_read_ptr (mark_read w.buf (w.buf.count - w.buf.head)) =
          ⟨0, 0, false⟩ := by
        rw [get_read_ptr_ge _ (by rw [mark_read_count, mark_read_head]; omega),
          mark_read_head, mark_read_count]
        congr 1 <;> omega
      have hlen2 : (get_read_ptr W1.buf).len = 0 := by rw [hbuf1, hr1]
      have hpart2 : (get_read_ptr W1.buf).is_part = false := by rw [hbuf1, hr1]
      have hiter2 := drainIter_empty W1 hsr1 hlen2 hpart2
      have hR1 : drainLoop sinkOk 1 W1 =
          ⟨(closeSession W1).1, (closeSession W1).2, true⟩ :=
        drainLoop_succ_brk sinkOk 0 W1 _ _ hiter2
      have hsd2 : stopDrain w = ⟨(closeSession W1).1,
          (Event.write (readBytes w.buf.buffer
              (w.buf.head + w.buf.buffer_size - w.buf.count) (w.buf.count - w.buf.head)) ::
            (if (pollUpdate w.poll_count).2 then [Event.fsync] else [])) ++
          (closeSession W1).2, true⟩ := by
        rw [show stopDrain w = drainLoop sinkOk (1 + 1) w from rfl, hsd, hR1]
      rw [hsd2]
      obtain ⟨cr, chd, cct, csr, cbs⟩ := closeSession_final W1
      refine ⟨rfl, cr, chd, cct, ?_, ?_, ?_⟩
      · rw [writesOf_append, writesOf_cons_write, writesOf_fsOpt]
        rw [unread, if_pos hlt]
        by_cases hfd : 0 ≤ w.fd
        · rw [(closeSession_fd_pos W1 (by rw [hfd1]; exact hfd)).2, writesOf_close,
            hh0, readBytes_zero]
          simp
        · rw [closeSession_fd_neg W1 (by rw [hfd1]; exact hfd), writesOf_nil,
            hh0, readBytes_zero]
          simp
      · intro hfd
        refine ⟨(closeSession_fd_pos W1 (by rw [hfd1]; exact hfd)).1,
          Event.write (readBytes w.buf.buffer
              (w.buf.head + w.buf.buffer_size - w.buf.count) (w.buf.count - w.buf.head)) ::
            (if (pollUpdate w.poll_count).2 then [Event.fsync] else []), ?_, ?_⟩
        · rw [(closeSession_fd_pos W1 (by rw [hfd1]; exact hfd)).2]
        · simp [close_not_mem_fsOpt]
      · intro _ hpos
        omega
    · -- genuine wrap: tail segment, then head segment, then close
      have hr1 : get_read_ptr (mark_read w.buf (w.buf.count - w.buf.head)) =
          ⟨0, w.buf.head, false⟩ := by
        rw [get_read_ptr_ge _ (by rw [mark_read_count, mark_read_head]; omega),
          mark_read_head, mark_read_count]
        congr 1 <;> omega
      have hpos2 : (get_read_ptr W1.buf).pos = 0 := by rw [hbuf1, hr1]
      have hlen2 : (get_read_ptr W1.buf).len = w.buf.head := by rw [hbuf1, hr1]
      have hpart2 : (get_read_ptr W1.buf).is_part = false := by rw [hbuf1, hr1]
      have hiter2 := drainIter_ok_full W1 0 w.buf.head hsr1 hpos2 hlen2 hpart2 (by omega)
      rw [hbb1] at hiter2
      obtain ⟨W2, hW2⟩ : ∃ x : WorkerState, ({ W1 with
          buf := mark_read W1.buf w.buf.head,
          poll_count := (pollUpdate W1.poll_count).1,
          total_written := W1.total_written + w.buf.head } : WorkerState) = x := ⟨_, rfl⟩
      rw [hW2] at hiter2
      have hfd2 : W2.fd = w.fd := by rw [← hW2]; exact hfd1
      have hR1 : drainLoop sinkOk 1 W1 = ⟨(closeSession W2).1,
          (Event.write (readBytes w.buf.buffer 0 w.buf.head) ::
            (if (pollUpdate W1.poll_count).2 then [Event.fsync] else [])) ++
          (closeSession W2).2, true⟩ :=
        drainLoop_succ_brk sinkOk 0 W1 _ _ hiter2
      have hsd2 : stopDrain w = ⟨(closeSession W2).1,
          (Event.write (readBytes w.buf.buffer
              (w.buf.head + w.buf.buffer_size - w.buf.count) (w.buf.count - w.buf.head)) ::
            (if (pollUpdate w.poll_count).2 then [Event.fsync] else [])) ++
          ((Event.write (readBytes w.buf.buffer 0 w.buf.head) ::
            (if (pollUpdate W1.poll_count).2 then [Event.fsync] else [])) ++
          (closeSession W2).2), true⟩ := by
        rw [show stopDrain w = drainLoop sinkOk (1 + 1) w from rfl, hsd, hR1]
      rw [hsd2]
      obtain ⟨cr, chd, cct, csr, cbs⟩ := closeSession_final W2
      refine ⟨rfl, cr, chd, cct, ?_, ?_, ?_⟩
      · rw [writesOf_append, writesOf_cons_write, writesOf_fsOpt,
          writesOf_append, writesOf_cons_write, writesOf_fsOpt]
        rw [unread, if_pos hlt]
        by_cases hfd : 0 ≤ w.fd
        · rw [(closeSession_fd_pos W2 (by rw [hfd2]; exact hfd)).2, writesOf_close]
          simp
        · rw [closeSession_fd_neg W2 (by rw [hfd2]; exact hfd), writesOf_nil]
          simp
      · intro hfd
        refine ⟨(closeSession_fd_pos W2 (by rw [hfd2]; exact hfd)).1,
          (Event.write (readBytes w.buf.buffer
              (w.buf.head + w.buf.buffer_size - w.buf.count) (w.buf.count - w.buf.head)) ::
            (if (pollUpdate w.poll_count).2 then [Event.fsync] else [])) ++
          (Event.write (readBytes w.buf.buffer 0 w.buf.head) ::
            (if (pollUpdate W1.poll_count).2 then [Event.fsync] else [])), ?_, ?_⟩
        · rw [(closeSession_fd_pos W2 (by rw [hfd2]; exact hfd)).2]
          simp
        · simp [close_not_mem_fsOpt]
      · intro _ _
        rw [writesOf_append, writesOf_cons_write, writesOf_fsOpt,
          writesOf_append, writesOf_cons_write, writesOf_fsOpt]
        by_cases hfd : 0 ≤ w.fd
        · rw [(closeSession_fd_pos W2 (by rw [hfd2]; exact hfd)).2, writesOf_close]
          simp
        · rw [closeSession_fd_neg W2 (by rw [hfd2]; exact hfd), writesOf_nil]
          simp
  · -- the unread region is contiguous
    have hread := get_read_ptr_ge w.buf (by omega)
    by_cases hc0 : w.buf.count = 0
    · have hiter := drainIter_empty w hsr (by rw [hread, hc0]) (by rw [hread])
      have hsd2 : stopDrain w = ⟨(closeSession w).1, (closeSession w).2, true⟩ :=
        drainLoop_succ_brk sinkOk 1 w _ _ hiter
      rw [hsd2]
      obtain ⟨cr, chd, cct, csr, cbs⟩ := closeSession_final w
      refine ⟨rfl, cr, chd, cct, ?_, ?_, ?_⟩
      · rw [unread_of_count_zero w.buf hc0]
        by_cases hfd : 0 ≤ w.fd
        · rw [(closeSession_fd_pos w hfd).2, writesOf_close]
          rfl
        · rw [closeSession_fd_neg w hfd, writesOf_nil]
          rfl
      · intro hfd
        refine ⟨(closeSession_fd_pos w hfd).1, [], ?_, by simp⟩
        rw [(closeSession_fd_pos w hfd).2]
        rfl
      · intro h1 _
        omega
    · have hiter := drainIter_ok_full w (w.buf.head - w.buf.count) w.buf.count hsr
        (by rw [hread]) (by rw [hread]) (by rw [hread]) (by omega)
      obtain ⟨W1, hW1⟩ : ∃ x : WorkerState, ({ w with
          buf := mark_read w.buf w.buf.count,
          poll_count := (pollUpdate w.poll_count).1,
          total_written := w.total_written + w.buf.count } : WorkerState) = x := ⟨_, rfl⟩
      rw [hW1] at hiter
      have hfd1 : W1.fd = w.fd := by rw [← hW1]
      have hsd2 : stopDrain w = ⟨(closeSession W1).1,
          (Event.write (readBytes w.buf.buffer (w.buf.head - w.buf.count) w.buf.count) ::
            (if (pollUpdate w.poll_count).2 then [Event.fsync] else [])) ++
          (closeSession W1).2, true⟩ :=
        drainLoop_succ_brk sinkOk 1 w _ _ hiter
      rw [hsd2]
      obtain ⟨cr, chd, cct, csr, cbs⟩ := closeSession_final W1
      refine ⟨rfl, cr, chd, cct, ?_, ?_, ?_⟩
      · rw [writesOf_append, writesOf_cons_write, writesOf_fsOpt]
        rw [unread, if_neg (by omega)]
        by_cases hfd : 0 ≤ w.fd
        · rw [(closeSession_fd_pos W1 (by rw [hfd1]; exact hfd)).2, writesOf_close]
          simp
        · rw [closeSession_fd_neg W1 (by rw [hfd1]; exact hfd), writesOf_nil]
          simp
      · intro hfd
        refine ⟨(closeSession_fd_pos W1 (by rw [hfd1]; exact hfd)).1,
          Event.write (readBytes w.buf.buffer (w.buf.head - w.buf.count) w.buf.count) ::
            (if (pollUpdate w.poll_count).2 then [Event.fsync] else []), ?_, ?_⟩
        · rw [(closeSession_fd_pos W1 (by rw [hfd1]; exact hfd)).2]
        · simp [close_not_mem_fsOpt]
      · intro h1 _
        omega

/-- Folding a sequence of accepted appends: when the cumulative size fits in
the remaining space, every call succeeds and the ghost FIFO view accumulates
the payloads in call order. -/
theorem appendAll_spec (ds : List (List Nat)) :
    ∀ s : BufState, Inv s → s.count + (ds.map List.length).sum ≤ s.buffer_size →
    (appendAll s ds).1 = true ∧
    (appendAll s ds).2.buffer_size = s.buffer_size ∧
    Inv (appendAll s ds).2 ∧
    (appendAll s ds).2.count = s.count + (ds.map List.length).sum ∧
    unread (appendAll s ds).2 = unread s ++ ds.flatten := by
  induction ds with
  | nil =>
    intro s hinv _
    exact ⟨rfl, rfl, hinv, by simp [appendAll], by simp [appendAll]⟩
  | cons d ds ih =>
    intro s hinv hsum
    simp only [List.map_cons, List.sum_cons] at hsum
    obtain ⟨hok, hbs, hhd, hcnt, hun⟩ := write_spec s d hinv (by omega)
    have hinv2 : Inv (write s d).2 := by
      constructor
      · rw [hbs]; exact hhd
      · rw [hbs, hcnt]; omega
    obtain ⟨iok, ibs, iinv, icnt, iun⟩ := ih (write s d).2 hinv2 (by rw [hcnt, hbs]; omega)
    have happ1 : (appendAll s (d :: ds)).1 =
        ((write s d).1 && (appendAll (write s d).2 ds).1) := rfl
    have happ2 : (appendAll s (d :: ds)).2 = (appendAll (write s d).2 ds).2 := rfl
    refine ⟨by rw [happ1, hok, iok]; rfl, by rw [happ2, ibs, hbs], by rw [happ2]; exact iinv,
      ?_, ?_⟩
    · rw [happ2, icnt, hcnt]
      simp only [List.map_cons, List.sum_cons]
      omega
    · rw [happ2, iun, hun]
      simp [List.append_assoc]

theorem pollAfter_mod (k : Nat) : pollAfter k = k % 100 := by
  induction k with
  | zero => rfl
  | succ k ih =>
    show (pollUpdate (pollAfter k)).1 = (k + 1) % 100
    rw [ih]
    by_cases h : k % 100 + 1 ≥ 100
    · rw [show pollUpdate (k % 100) = (0, true) from by unfold pollUpdate; rw [if_pos h]]
      show 0 = (k + 1) % 100
      omega
    · rw [show pollUpdate (k % 100) = (k % 100 + 1, false) from by
        unfold pollUpdate; rw [if_neg h]]
      show k % 100 + 1 = (k + 1) % 100
      omega

theorem flushCount_div (k : Nat) : flushCount k = k / 100 := by
  induction k with
  | zero => rfl
  | succ k ih =>
    show flushCount k + (if (pollUpdate (pollAfter k)).2 then 1 else 0) = (k + 1) / 100
    rw [ih, pollAfter_mod]
    by_cases h : k % 100 + 1 ≥ 100
    · rw [show pollUpdate (k % 100) = (0, true) from by unfold pollUpdate; rw [if_pos h]]
      show k / 100 + 1 = (k + 1) / 100
      omega
    · rw [show pollUpdate (k % 100) = (k % 100 + 1, false) from by
        unfold pollUpdate; rw [if_neg h]]
      show k / 100 + 0 = (k + 1) / 100
      omega

theorem pollFlush_iff (k : Nat) :
    (pollUpdate (pollAfter k)).2 = decide ((k + 1) % 100 = 0) := by
  rw [pollAfter_mod]
  by_cases h : k % 100 + 1 ≥ 100
  · rw [show pollUpdate (k % 100) = (0, true) from by unfold pollUpdate; rw [if_pos h]]
    have : (k + 1) % 100 = 0 := by omega
    rw [this]
    rfl
  · rw [show pollUpdate (k % 100) = (k % 100 + 1, false) from by
      unfold pollUpdate; rw [if_neg h]]
    have : (k + 1) % 100 ≠ 0 := by omega
    simp [this]

theorem readBytes_getElem (buf : Nat → Nat) (p len i : Nat)
    (h : i < (readBytes buf p len).length) :
    (readBytes buf p len)[i] = buf (p + i) := by
  simp [readBytes]

/-- The ghost FIFO view reads exactly the circular range starting at
`read_pos = (write_cursor - stored_count) mod capacity`. -/
theorem unread_eq_mod_range (s : BufState) (hinv : Inv s) :
    unread s = (List.range s.count).map
      (fun k => s.buffer ((readPosSpec s + k) % s.buffer_size)) := by
  obtain ⟨hh, hc⟩ := hinv
  unfold unread readPosSpec
  split_ifs with hlt
  · apply List.ext_getElem
    · simp [readBytes_length]
      omega
    · intro i h1 h2
      simp only [List.length_append, readBytes_length] at h1
      rw [List.getElem_map, List.getElem_range]
      have e1 : (s.head + s.buffer_size - s.count) % s.buffer_size =
          s.head + s.buffer_size - s.count := Nat.mod_eq_of_lt (by omega)
      rw [e1]
      by_cases hi : i < s.count - s.head
      · rw [List.getElem_append_left (by rw [readBytes_length]; exact hi)]
        rw [readBytes_getElem]
        rw [Nat.mod_eq_of_lt (show s.head + s.buffer_size - s.count + i < s.buffer_size
          from by omega)]
      · rw [List.getElem_append_right (by rw [readBytes_length]; omega)]
        simp only [readBytes_length]
        rw [readBytes_getElem]
        rw [Nat.mod_eq_sub_mod (show s.buffer_size ≤ s.head + s.buffer_size - s.count + i
          from by omega)]
        rw [Nat.mod_eq_of_lt (show s.head + s.buffer_size - s.count + i - s.buffer_size <
          s.buffer_size from by omega)]
        congr 1
        omega
  · apply List.ext_getElem
    · simp [readBytes_length]
    · intro i h1 h2
      have h1' : i < s.count := by
        simpa [readBytes_length] using h1
      rw [List.getElem_map, List.getElem_range, readBytes_getElem]
      rw [Nat.mod_eq_sub_mod (show s.buffer_size ≤ s.head + s.buffer_size - s.count
        from by omega)]
      rw [Nat.mod_eq_of_lt (show s.head + s.buffer_size - s.count - s.buffer_size <
        s.buffer_size from by omega)]
      rw [Nat.mod_eq_of_lt (show s.head + s.buffer_size - s.count - s.buffer_size + i <
        s.buffer_size from by omega)]
      congr 1
      omega

/-- A freshly initialised buffer of the given capacity: storage zeroed,
cursors cleared (`init` + `start_log`). -/
def emptyBuf (cap : Nat) : BufState := ⟨cap, fun _ => 0, 0, 0⟩

/-- A worker in an active session over the given buffer state. -/
def mkWorker (b : BufState) (sr : Bool) (fd : Int) : WorkerState := ⟨b, sr, true, fd, 0, 0⟩

/-- Scenario buffer (spec §8): capacity 1024 as built by the constructor. -/
def scenBuf0 : BufState := emptyBuf (initBufferSize 1024)

/-- Scenario buffer after appending 200 bytes. -/
def scenBuf1 : BufState := (write scenBuf0 (List.replicate 200 7)).2

/-- Scenario buffer after appending 150 further bytes (350 resident). -/
def scenBuf2 : BufState := (write scenBuf1 (List.replicate 150 9)).2

/-- Boundary state for `get_read_ptr`: capacity 600 (the constructor minimum),
`_head = 0`, `_count = 5`, so `read_pos + stored_count = 595 + 5 = 600` equals
capacity exactly (reachable by appending 595 bytes, draining them, then
appending 5 more... or simply appending 600 and consuming 595). -/
def boundaryBuf : BufState := ⟨600, fun _ => 0, 0, 5⟩

/-- A wrapped buffer state: capacity 600, 300 unread bytes of which 200 sit at
the end of the storage and 100 at the start. -/
def wrapBuf : BufState := ⟨600, fun _ => 0, 100, 300⟩

/-- A small drained-session state used as a witness input. -/
def smallBuf : BufState := ⟨600, fun _ => 0, 10, 5⟩

/-- A worker observing a wrapped run inside an active session, about to hit a
sink error. -/
def failWorker : WorkerState := ⟨⟨600, fun _ => 0, 0, 350⟩, true, true, 3, 0, 0⟩

/-- State of the worker after a failing sink write: `_should_run` cleared and
the flush counter advanced, everything else (buffer, cursors, `_running`,
`_fd`) untouched. -/
def failAbort (w : WorkerState) : WorkerState :=
  { w with should_run := false, poll_count := (pollUpdate w.poll_count).1 }

/-- The sink calls of the failing iteration: the attempted write, plus the
fsync that the source still issues when the counter reaches 100 (the fsync
check at line 198 precedes the error check at line 205). -/
def failEvents (w : WorkerState) : List Event :=
  Event.write (readBytes w.buf.buffer (get_read_ptr w.buf).pos (get_read_ptr w.buf).len) ::
    (if (pollUpdate w.poll_count).2 then [Event.fsync] else [])

/-- C1: for every sequence of appends whose cumulative size fits in the
capacity starting from a drained buffer, every append is accepted and the
byte stream the worker's drain loop hands to the sink is exactly the
concatenation of the payloads in call order - byte-exact FIFO, including when
the run is split by wraparound (the start cursor is arbitrary). -/
theorem fifo_drain_delivery (s : BufState) (ds : List (List Nat)) (fd : Int)
    (hinv : Inv s) (h0 : s.count = 0)
    (hsum : (ds.map List.length).sum ≤ s.buffer_size) :
    (appendAll s ds).1 = true ∧
    (writesOf (stopDrain (mkWorker (appendAll s ds).2 false fd)).events).flatten =
      ds.flatten := by
  obtain ⟨hok, hbs, hinv2, hcnt, hun⟩ := appendAll_spec ds s hinv (by omega)
  refine ⟨hok, ?_⟩
  have hfl := (stopDrain_spec (mkWorker (appendAll s ds).2 false fd)
    (show Inv (mkWorker (appendAll s ds).2 false fd).buf from hinv2) rfl).2.2.2.2.1
  rw [show (mkWorker (appendAll s ds).2 false fd).buf = (appendAll s ds).2 from rfl] at hfl
  rw [hfl, hun, unread_of_count_zero s h0]
  rfl

/-- C1 witness: a drained buffer with the cursor near the end of the storage,
so the second payload wraps. -/
theorem fifo_drain_delivery_witness :
    Inv (⟨600, fun _ => 0, 590, 0⟩ : BufState) ∧
    (⟨600, fun _ => 0, 590, 0⟩ : BufState).count = 0 ∧
    (([List.replicate 20 3, [1, 2]].map List.length).sum ≤
      (⟨600, fun _ => 0, 590, 0⟩ : BufState).buffer_size) ∧
    ((appendAll ⟨600, fun _ => 0, 590, 0⟩ [List.replicate 20 3, [1, 2]]).1 = true ∧
      (writesOf (stopDrain (mkWorker
        (appendAll ⟨600, fun _ => 0, 590, 0⟩ [List.replicate 20 3, [1, 2]]).2
        false 3)).events).flatten = [List.replicate 20 3, [1, 2]].flatten) :=
  ⟨by decide, by decide, by decide,
   fifo_drain_delivery ⟨600, fun _ => 0, 590, 0⟩ [List.replicate 20 3, [1, 2]] 3
     (by decide) (by decide) (by decide)⟩

/-- C2: for every buffer state and every payload larger than
`capacity - stored_count`, `LogWriter::write` returns `false` and leaves the
entire state (cursors and buffer contents) unchanged - overflow is rejected
wholesale, no partial write is stored. -/
theorem write_overflow_rejected (s : BufState) (data : List Nat)
    (h : s.buffer_size - s.count < data.length) :
    write s data = (false, s) := by
  unfold write
  rw [if_pos h]

/-- C2 witness: spec §8 scenario - `append(900)` on an empty 1024-capacity
buffer, then `append(200)` is rejected with 900 still stored. -/
theorem write_overflow_rejected_witness :
    ((write (emptyBuf 1024) (List.replicate 900 1)).2.buffer_size -
        (write (emptyBuf 1024) (List.replicate 900 1)).2.count <
      (List.replicate 200 1).length) ∧
    write (write (emptyBuf 1024) (List.replicate 900 1)).2 (List.replicate 200 1) =
      (false, (write (emptyBuf 1024) (List.replicate 900 1)).2) ∧
    (write (emptyBuf 1024) (List.replicate 900 1)).2.count = 900 :=
  ⟨by decide,
   write_overflow_rejected (write (emptyBuf 1024) (List.replicate 900 1)).2
     (List.replicate 200 1) (by decide),
   by decide⟩

/-- C3 counterexample: at `boundaryBuf` the claim's rule predicts
`is_partial = false` (since `read_pos + stored_count = capacity` does not
exceed capacity), but `get_read_ptr` - which branches on
`_head - _count < 0` - reports a partial run. -/
theorem readable_run_boundary_counterexample :
    get_read_ptr boundaryBuf ≠ readable_run_spec boundaryBuf ∧
    readPosSpec boundaryBuf + boundaryBuf.count = boundaryBuf.buffer_size ∧
    (get_read_ptr boundaryBuf).is_part = true ∧
    (readable_run_spec boundaryBuf).is_part = false := by
  refine ⟨by decide, by decide, by decide, by decide⟩

/-- C3 (amended): `get_read_ptr` computes `read_pos` as the spec says, but
takes the partial branch exactly when `stored_count > write_cursor`,
equivalently when `read_pos + stored_count` reaches *or* exceeds capacity
while data is resident (the boundary case `read_pos + stored_count =
capacity` also reports `is_partial = true`). -/
theorem readable_run_amended_correct (s : BufState) (hinv : Inv s) :
    get_read_ptr s = readable_run_amended s ∧
    ((get_read_ptr s).is_part = true ↔ s.head < s.count) ∧
    (s.head < s.count ↔ (s.buffer_size ≤ readPosSpec s + s.count ∧ 0 < s.count)) := by
  obtain ⟨hh, hc⟩ := hinv
  have hiff : s.head < s.count ↔
      (s.buffer_size ≤ readPosSpec s + s.count ∧ 0 < s.count) := by
    unfold readPosSpec
    by_cases hlt : s.head < s.count
    · rw [Nat.mod_eq_of_lt (show s.head + s.buffer_size - s.count < s.buffer_size
        from by omega)]
      exact ⟨fun _ => ⟨by omega, by omega⟩, fun _ => hlt⟩
    · rw [Nat.mod_eq_sub_mod (show s.buffer_size ≤ s.head + s.buffer_size - s.count
        from by omega)]
      rw [Nat.mod_eq_of_lt (show s.head + s.buffer_size - s.count - s.buffer_size <
        s.buffer_size from by omega)]
      constructor
      · intro h'; exact absurd h' hlt
      · intro ⟨h1, h2⟩; omega
  refine ⟨?_, ?_, hiff⟩
  · unfold get_read_ptr readable_run_amended
    by_cases hlt : s.head < s.count
    · rw [if_pos hlt, if_pos (hiff.mp hlt)]
      unfold readPosSpec
      rw [Nat.mod_eq_of_lt (show s.head + s.buffer_size - s.count < s.buffer_size
        from by omega)]
    · rw [if_neg hlt, if_neg (fun hco => hlt (hiff.mpr hco))]
      unfold readPosSpec
      rw [Nat.mod_eq_sub_mod (show s.buffer_size ≤ s.head + s.buffer_size - s.count
        from by omega)]
      rw [Nat.mod_eq_of_lt (show s.head + s.buffer_size - s.count - s.buffer_size <
        s.buffer_size from by omega)]
      congr 1
      omega
  · unfold get_read_ptr
    by_cases hlt : s.head < s.count
    · rw [if_pos hlt]
      simpa using hlt
    · rw [if_neg hlt]
      simpa using hlt

/-- C3 amended witness: a wrapped state where the partial branch and the
amended rule agree. -/
theorem readable_run_amended_correct_witness :
    Inv wrapBuf ∧
    (get_read_ptr wrapBuf = readable_run_amended wrapBuf ∧
      ((get_read_ptr wrapBuf).is_part = true ↔ wrapBuf.head < wrapBuf.count) ∧
      (wrapBuf.head < wrapBuf.count ↔
        (wrapBuf.buffer_size ≤ readPosSpec wrapBuf + wrapBuf.count ∧
          0 < wrapBuf.count))) :=
  ⟨by decide, readable_run_amended_correct wrapBuf (by decide)⟩

/-- C4: the flush cadence of the drain loop - the counter after `k` writes is
`k mod 100`, the number of forced flushes among the first `k` writes is
`k / 100`, every window of 100 consecutive writes contains exactly one forced
flush (issued immediately after the write that makes the counter reach 100,
i.e. the 100th write since the last flush), and the counter is zero again
right after each flush. -/
theorem fsync_cadence :
    (∀ k, pollAfter k = k % 100) ∧
    (∀ k, flushCount k = k / 100) ∧
    (∀ j, flushCount (j + 100) = flushCount j + 1) ∧
    (∀ k, (pollUpdate (pollAfter k)).2 = decide ((k + 1) % 100 = 0)) ∧
    (∀ k, (pollUpdate (pollAfter k)).2 = true → pollAfter (k + 1) = 0) := by
  refine ⟨pollAfter_mod, flushCount_div, ?_, pollFlush_iff, ?_⟩
  · intro j
    rw [flushCount_div, flushCount_div]
    omega
  · intro k h
    rw [pollFlush_iff] at h
    rw [pollAfter_mod]
    exact of_decide_eq_true h

/-- C4 witness: the 100th write triggers the flush and resets the counter. -/
theorem fsync_cadence_witness :
    (pollUpdate (pollAfter 99)).2 = true ∧ pollAfter (99 + 1) = 0 :=
  ⟨by decide, fsync_cadence.2.2.2.2 99 (by decide)⟩

/-- C5: when the unread region crosses the storage boundary, the stop-drain
hands it to the sink in exactly two write invocations - the tail segment
(from `read_pos` up to exactly `capacity`) first, the head segment (from
offset 0) second - each a contiguous slice of the backing storage, and their
concatenation is exactly the wrapped region. -/
theorem wrapped_region_two_writes (w : WorkerState) (hinv : Inv w.buf)
    (hsr : w.should_run = false) (hwrap : w.buf.head < w.buf.count)
    (hpos : 0 < w.buf.head) :
    writesOf (stopDrain w).events =
      [readBytes w.buf.buffer (w.buf.head + w.buf.buffer_size - w.buf.count)
        (w.buf.count - w.buf.head),
       readBytes w.buf.buffer 0 w.buf.head] ∧
    (writesOf (stopDrain w).events).length = 2 ∧
    readBytes w.buf.buffer (w.buf.head + w.buf.buffer_size - w.buf.count)
        (w.buf.count - w.buf.head) ++ readBytes w.buf.buffer 0 w.buf.head =
      unread w.buf ∧
    (w.buf.head + w.buf.buffer_size - w.buf.count) + (w.buf.count - w.buf.head) =
      w.buf.buffer_size := by
  obtain ⟨hh, hc⟩ := hinv
  obtain ⟨_, _, _, _, _, _, hwr⟩ := stopDrain_spec w ⟨hh, hc⟩ hsr
  have h2 := hwr hwrap hpos
  refine ⟨h2, by rw [h2]; rfl, ?_, by omega⟩
  rw [unread, if_pos hwrap]

/-- C5 witness: 300 unread bytes wrapped as 200 at the end plus 100 at the
start of a 600-byte storage. -/
theorem wrapped_region_two_writes_witness :
    Inv wrapBuf ∧ (mkWorker wrapBuf false 3).should_run = false ∧
    (mkWorker wrapBuf false 3).buf.head < (mkWorker wrapBuf false 3).buf.count ∧
    0 < (mkWorker wrapBuf false 3).buf.head ∧
    (writesOf (stopDrain (mkWorker wrapBuf false 3)).events =
      [readBytes (mkWorker wrapBuf false 3).buf.buffer
        ((mkWorker wrapBuf false 3).buf.head +
          (mkWorker wrapBuf false 3).buf.buffer_size -
          (mkWorker wrapBuf false 3).buf.count)
        ((mkWorker wrapBuf false 3).buf.count - (mkWorker wrapBuf false 3).buf.head),
       readBytes (mkWorker wrapBuf false 3).buf.buffer 0
        (mkWorker wrapBuf false 3).buf.head] ∧
      (writesOf (stopDrain (mkWorker wrapBuf false 3)).events).length = 2 ∧
      readBytes (mkWorker wrapBuf false 3).buf.buffer
          ((mkWorker wrapBuf false 3).buf.head +
            (mkWorker wrapBuf false 3).buf.buffer_size -
            (mkWorker wrapBuf false 3).buf.count)
          ((mkWorker wrapBuf false 3).buf.count -
            (mkWorker wrapBuf false 3).buf.head) ++
        readBytes (mkWorker wrapBuf false 3).buf.buffer 0
          (mkWorker wrapBuf false 3).buf.head =
        unread (mkWorker wrapBuf false 3).buf ∧
      ((mkWorker wrapBuf false 3).buf.head +
          (mkWorker wrapBuf false 3).buf.buffer_size -
          (mkWorker wrapBuf false 3).buf.count) +
        ((mkWorker wrapBuf false 3).buf.count -
          (mkWorker wrapBuf false 3).buf.head) =
        (mkWorker wrapBuf false 3).buf.buffer_size) :=
  ⟨by decide, by decide, by decide, by decide,
   wrapped_region_two_writes (mkWorker wrapBuf false 3) (by decide) (by decide)
     (by decide) (by decide)⟩

/-- C6: after a stop request, once the drain has handed every previously
appended byte to the sink, the session closes exactly once: the loop breaks,
`_running` is cleared, the cursors are reset to zero, the descriptor is closed
once (set to -1) as the final sink call, and no write events follow it. -/
theorem stop_drain_closes_once (w : WorkerState) (hinv : Inv w.buf)
    (hsr : w.should_run = false) (hfd : 0 ≤ w.fd) :
    (stopDrain w).broke = true ∧
    (stopDrain w).final.running = false ∧
    (stopDrain w).final.buf.head = 0 ∧
    (stopDrain w).final.buf.count = 0 ∧
    (stopDrain w).final.fd = -1 ∧
    (writesOf (stopDrain w).events).flatten = unread w.buf ∧
    ∃ pre, (stopDrain w).events = pre ++ [Event.close] ∧ Event.close ∉ pre := by
  obtain ⟨hb, hr, hhd, hct, hfl, hfdc, _⟩ := stopDrain_spec w hinv hsr
  exact ⟨hb, hr, hhd, hct, (hfdc hfd).1, hfl, (hfdc hfd).2⟩

/-- C6 witness: a small active session with an open descriptor and 5 unread
bytes. -/
theorem stop_drain_closes_once_witness :
    Inv smallBuf ∧ (mkWorker smallBuf false 3).should_run = false ∧
    (0 ≤ (mkWorker smallBuf false 3).fd) ∧
    ((stopDrain (mkWorker smallBuf false 3)).broke = true ∧
      (stopDrain (mkWorker smallBuf false 3)).final.running = false ∧
      (stopDrain (mkWorker smallBuf false 3)).final.buf.head = 0 ∧
      (stopDrain (mkWorker smallBuf false 3)).final.buf.count = 0 ∧
      (stopDrain (mkWorker smallBuf false 3)).final.fd = -1 ∧
      (writesOf (stopDrain (mkWorker smallBuf false 3)).events).flatten =
        unread (mkWorker smallBuf false 3).buf ∧
      ∃ pre, (stopDrain (mkWorker smallBuf false 3)).events = pre ++ [Event.close] ∧
        Event.close ∉ pre) :=
  ⟨by decide, by decide, by decide,
   stop_drain_closes_once (mkWorker smallBuf false 3) (by decide) (by decide)
     (by decide)⟩

/-- C7: the worker leaves the condition-variable wait and proceeds exactly when
`available ≥ min_chunk`, or `is_partial`, or `should_run` is false; otherwise
the iteration blocks.  Scenario (spec §8): capacity 1024, append 200 bytes -
the worker stays parked; append 150 more - the worker wakes and writes the
whole 350-byte run, consuming it. -/
theorem drain_gate_condition :
    (∀ (sink : List Nat → Int) (w : WorkerState),
      drainIter sink w = StepResult.wait ↔ proceedCond w.should_run w.buf = false) ∧
    (∀ (sr : Bool) (s : BufState),
      proceedCond sr s = true ↔
        (min_write_chunk ≤ (get_read_ptr s).len ∨ (get_read_ptr s).is_part = true ∨
          sr = false)) ∧
    (write scenBuf0 (List.replicate 200 7)).1 = true ∧
    proceedCond true scenBuf1 = false ∧
    drainIter sinkOk (mkWorker scenBuf1 true 3) = StepResult.wait ∧
    (write scenBuf1 (List.replicate 150 9)).1 = true ∧
    (get_read_ptr scenBuf2).len = 350 ∧
    (get_read_ptr scenBuf2).is_part = false ∧
    proceedCond true scenBuf2 = true ∧
    drainIter sinkOk (mkWorker scenBuf2 true 3) =
      StepResult.cont ⟨mark_read scenBuf2 350, true, true, 3, 1, 350⟩
        [Event.write (readBytes scenBuf2.buffer 0 350)] ∧
    (mark_read scenBuf2 350).count = 0 := by
  refine ⟨?_, ?_, by decide, by decide, by rfl, by decide, by decide, by decide,
    by decide, by rfl, by decide⟩
  · intro sink w
    constructor
    · intro hw
      by_contra hpc
      have hpc' : proceedCond w.should_run w.buf = true := by
        cases h : proceedCond w.should_run w.buf
        · exact absurd h hpc
        · rfl
      unfold drainIter at hw
      rw [hpc'] at hw
      rw [if_pos rfl] at hw
      dsimp only at hw
      split_ifs at hw
    · intro hpc
      unfold drainIter
      rw [hpc]
      simp
  · intro sr s
    unfold proceedCond
    simp [Bool.or_eq_true, decide_eq_true_eq, Bool.not_eq_true', or_assoc]

/-- C7 witness: the 200-byte state really parks the worker. -/
theorem drain_gate_condition_witness :
    drainIter sinkOk (mkWorker scenBuf1 true 3) = StepResult.wait :=
  (drain_gate_condition.1 sinkOk (mkWorker scenBuf1 true 3)).mpr (by decide)

/-- C8: every ring-buffer operation preserves the data-model invariants
`0 ≤ write_cursor < capacity` and `0 ≤ stored_count ≤ capacity`: accepted
appends (which also advance `stored_count` by the payload size), `mark_read`
consumption, and the session reset; and the unread bytes occupy exactly the
circular range starting at `(write_cursor - stored_count) mod capacity`. -/
theorem ring_invariants_preserved :
    (∀ (s : BufState) (data : List Nat), Inv s →
      s.count + data.length ≤ s.buffer_size →
      (write s data).1 = true ∧ Inv (write s data).2 ∧
      (write s data).2.count = s.count + data.length ∧
      (write s data).2.head < s.buffer_size) ∧
    (∀ (s : BufState) (n : Nat), Inv s → n ≤ s.count → Inv (mark_read s n)) ∧
    (∀ s : BufState, Inv s → Inv (start_log_reset s)) ∧
    (∀ s : BufState, Inv s →
      unread s = (List.range s.count).map
        (fun k => s.buffer ((readPosSpec s + k) % s.buffer_size))) := by
  refine ⟨?_, ?_, ?_, unread_eq_mod_range⟩
  · intro s data hinv hsz
    obtain ⟨hok, hbs, hhd, hcnt, _⟩ := write_spec s data hinv hsz
    refine ⟨hok, ⟨by rw [hbs]; exact hhd, by rw [hbs, hcnt]; omega⟩, hcnt, hhd⟩
  · intro s n hinv _
    refine ⟨hinv.1, ?_⟩
    show s.count - n ≤ s.buffer_size
    have := hinv.2
    omega
  · intro s hinv
    constructor
    · show (0 : Nat) < s.buffer_size
      have := hinv.1
      omega
    · show (0 : Nat) ≤ s.buffer_size
      exact Nat.zero_le _

/-- C8 witness: the three operations instantiated on concrete states. -/
theorem ring_invariants_preserved_witness :
    Inv (emptyBuf 600) ∧
    (emptyBuf 600).count + (List.replicate 10 1).length ≤ (emptyBuf 600).buffer_size ∧
    ((write (emptyBuf 600) (List.replicate 10 1)).1 = true ∧
      Inv (write (emptyBuf 600) (List.replicate 10 1)).2 ∧
      (write (emptyBuf 600) (List.replicate 10 1)).2.count =
        (emptyBuf 600).count + (List.replicate 10 1).length ∧
      (write (emptyBuf 600) (List.replicate 10 1)).2.head < (emptyBuf 600).buffer_size) ∧
    Inv (mark_read wrapBuf 5) ∧
    Inv (start_log_reset wrapBuf) ∧
    unread wrapBuf = (List.range wrapBuf.count).map
      (fun k => wrapBuf.buffer ((readPosSpec wrapBuf + k) % wrapBuf.buffer_size)) :=
  ⟨by decide, by decide,
   ring_invariants_preserved.1 (emptyBuf 600) (List.replicate 10 1) (by decide) (by decide),
   ring_invariants_preserved.2.1 wrapBuf 5 (by decide) (by decide),
   ring_invariants_preserved.2.2.1 wrapBuf (by decide),
   ring_invariants_preserved.2.2.2 wrapBuf (by decide)⟩

/-- C9 counterexample: with a small requested size the constructor sets the
capacity to `min_chunk + 300` exactly, which does not strictly exceed
`min_chunk + 300`. -/
theorem capacity_strict_counterexample :
    initBufferSize 0 = min_write_chunk + 300 ∧
    ¬ (initBufferSize 0 > min_write_chunk + 300) := by
  refine ⟨by decide, by decide⟩

/-- C9 (amended): the constructor capacity `max(requested, min_chunk + 300)`
is set once and is at least `min_chunk + 300` (equality when the request is
small) and at least the requested size; consequently an append of at most
`min_chunk` bytes into a drained buffer of that capacity always succeeds. -/
theorem capacity_amended (r : Nat) (s : BufState) (data : List Nat)
    (hbs : s.buffer_size = initBufferSize r) (h0 : s.count = 0)
    (hd : data.length ≤ min_write_chunk) :
    min_write_chunk + 300 ≤ initBufferSize r ∧
    r ≤ initBufferSize r ∧
    (write s data).1 = true := by
  have h600 : min_write_chunk + 300 ≤ initBufferSize r := le_max_right _ _
  have hmc : min_write_chunk = 300 := rfl
  refine ⟨h600, le_max_left _ _, ?_⟩
  unfold write
  rw [if_neg (show ¬ s.buffer_size - s.count < data.length from by omega)]
  split_ifs <;> rfl

/-- C9 amended witness. -/
theorem capacity_amended_witness :
    (emptyBuf (initBufferSize 1024)).buffer_size = initBufferSize 1024 ∧
    (emptyBuf (initBufferSize 1024)).count = 0 ∧
    (List.replicate 300 1).length ≤ min_write_chunk ∧
    (min_write_chunk + 300 ≤ initBufferSize 1024 ∧
      1024 ≤ initBufferSize 1024 ∧
      (write (emptyBuf (initBufferSize 1024)) (List.replicate 300 1)).1 = true) :=
  ⟨rfl, rfl, by decide,
   capacity_amended 1024 (emptyBuf (initBufferSize 1024)) (List.replicate 300 1)
     rfl rfl (by decide)⟩

/-- C10: when the sink write returns a negative result, the iteration breaks
out of the drain loop with `_should_run` cleared and the flush counter
advanced, but without closing the descriptor, without resetting `_head` or
`_count`, and without clearing `_running`: the buffer, `_running` and `_fd`
are exactly as before, and no close event is emitted. -/
theorem write_error_aborts_session (w : WorkerState)
    (hgate : proceedCond w.should_run w.buf = true)
    (hlen : 0 < (get_read_ptr w.buf).len) :
    drainIter sinkFail w = StepResult.brk (failAbort w) (failEvents w) ∧
    (failAbort w).buf = w.buf ∧
    (failAbort w).running = w.running ∧
    (failAbort w).fd = w.fd ∧
    (failAbort w).should_run = false ∧
    Event.close ∉ failEvents w := by
  refine ⟨?_, rfl, rfl, rfl, rfl, by simp [failEvents, close_not_mem_fsOpt]⟩
  unfold drainIter failAbort failEvents
  rw [hgate, if_pos rfl, if_pos hlen, if_pos (sinkFail_neg _)]

/-- C10 witness: an active session observing a wrapped (partial) run whose
sink write fails. -/
theorem write_error_aborts_session_witness :
    proceedCond failWorker.should_run failWorker.buf = true ∧
    0 < (get_read_ptr failWorker.buf).len ∧
    (drainIter sinkFail failWorker =
        StepResult.brk (failAbort failWorker) (failEvents failWorker) ∧
      (failAbort failWorker).buf = failWorker.buf ∧
      (failAbort failWorker).running = failWorker.running ∧
      (failAbort failWorker).fd = failWorker.fd ∧
      (failAbort failWorker).should_run = false ∧
      Event.close ∉ failEvents failWorker) :=
  ⟨by decide, by decide, write_error_aborts_session failWorker (by decide) (by decide)⟩

end LogWriter
